import Mathlib

/-!
Verification development for the DJ Agent API (src/api/index.py).

The embedding models, from the source:
  * the mood classifier `infer_mood` (pulse values as rationals),
  * the bounded pulse history `deque(maxlen=3)` and its append,
  * the recommendation parser: Python `re.search` over the five concrete
    patterns of the file, via a small backtracking regex engine whose
    semantics (leftmost match, greedy/lazy quantifiers with backtracking,
    ordered alternation) mirrors Python's `re` on these patterns,
  * the whitespace normalisation applied to the provider reply,
  * the two request handlers as state-passing functions whose failure
    points (float conversion, the external completion call) are explicit.
-/

namespace DJ

/-! ## Python string helpers -/

/-- The characters Python treats as `str` whitespace: matched by `\s` in a
string pattern, stripped by `str.strip()` and split on by `str.split()`
(the two sets coincide): ASCII whitespace, the separator controls
`\x1c`-`\x1f`, NEL, NBSP and the Unicode space characters. -/
def wsChars : List Char :=
  ['\t', '\n', '\x0b', '\x0c', '\r', '\x1c', '\x1d', '\x1e', '\x1f', ' ',
   '\x85', '\xa0',
   '\u1680', '\u2000', '\u2001', '\u2002', '\u2003', '\u2004',
   '\u2005', '\u2006', '\u2007', '\u2008', '\u2009', '\u200a',
   '\u2028', '\u2029', '\u202f', '\u205f', '\u3000']

/-- Python `str`-whitespace test (see `wsChars`). -/
def wsP (c : Char) : Bool := wsChars.contains c

/-- The characters `float(...)` strips around a literal: the same set minus
the four separator controls `\x1c`-`\x1f`, which `float` rejects. -/
def floatWsChars : List Char :=
  ['\t', '\n', '\x0b', '\x0c', '\r', ' ',
   '\x85', '\xa0',
   '\u1680', '\u2000', '\u2001', '\u2002', '\u2003', '\u2004',
   '\u2005', '\u2006', '\u2007', '\u2008', '\u2009', '\u200a',
   '\u2028', '\u2029', '\u202f', '\u205f', '\u3000']

/-- Whitespace for `float(...)` stripping (see `floatWsChars`). -/
def floatWs (c : Char) : Bool := floatWsChars.contains c

/-- Drop characters satisfying `p` from both ends. -/
def stripEnds (p : Char → Bool) (s : List Char) : List Char :=
  ((s.dropWhile p).reverse.dropWhile p).reverse

/-- Python `str.strip()`. -/
def pyStrip (s : List Char) : List Char := stripEnds wsP s

/-- The stripping `float(...)` applies to its string argument. -/
def floatStrip (s : List Char) : List Char := stripEnds floatWs s

/-- Helper for `splitWs`: `acc` holds the current word, reversed. -/
def splitWsAux : List Char → List Char → List (List Char)
  | [], acc => if acc.isEmpty then [] else [acc.reverse]
  | c :: cs, acc =>
    if wsP c then
      if acc.isEmpty then splitWsAux cs [] else acc.reverse :: splitWsAux cs []
    else splitWsAux cs (c :: acc)

/-- Python `str.split()` with no argument: split on whitespace runs,
dropping empty pieces. -/
def splitWs (s : List Char) : List (List Char) :=
  splitWsAux s []

/-- `" ".join(words)`. -/
def joinSp : List (List Char) → List Char
  | [] => []
  | [w] => w
  | w :: ws => w ++ ' ' :: joinSp ws

/-- The cleaning the handlers apply to the provider reply before the regexes:
`" ".join(text.strip().split())`. -/
def cleanText (s : List Char) : List Char :=
  joinSp (splitWs (pyStrip s))

/-! ## A backtracking regex engine for the five patterns of the file

Only the constructs those patterns use are present: literals, greedy
`*` / `+` and lazy `+?` over one-character classes, an optional character,
concatenation, ordered alternation, one capture group and `$`.  `reRun`
explores alternatives in exactly Python's backtracking order (greedy
quantifiers longest-first, lazy shortest-first, alternation left-first) and
`reSearch` tries match start positions left to right, so on these patterns
the engine returns precisely what `re.search` returns.  `$` is modelled as
end-of-input: the strings the code searches have been normalised and contain
no newline, where Python's `$` agrees with end-of-input. -/

/-- The value of the (single) capture group of a match, when the group
participated. -/
abbrev Cap : Type := Option (List Char)

inductive RE where
  /-- a literal string -/
  | lit : List Char → RE
  /-- greedy `*` over a one-character class -/
  | star : (Char → Bool) → RE
  /-- greedy `+` over a one-character class -/
  | more : (Char → Bool) → RE
  /-- lazy `+?` over a one-character class -/
  | lazyMore : (Char → Bool) → RE
  /-- optional single character, greedy (`x?`) -/
  | opt : (Char → Bool) → RE
  | cat : RE → RE → RE
  /-- ordered alternation -/
  | alt : RE → RE → RE
  /-- the capture group -/
  | group : RE → RE
  /-- `$` (end of input on newline-free subjects) -/
  | eos : RE

/-- Match a literal prefix, returning the rest. -/
def dropPre : List Char → List Char → Option (List Char)
  | [], s => some s
  | _ :: _, [] => none
  | c :: l, d :: s => if c == d then dropPre l s else none

/-- Length of the longest prefix of characters satisfying `p`. -/
def leadCount (p : Char → Bool) : List Char → Nat
  | [] => 0
  | c :: cs => if p c then leadCount p cs + 1 else 0

/-- Greedy quantifier backtracking: try consuming `n` characters, then
`n - 1`, ..., down to `0`. -/
def tryFrom (k : List Char → Option Cap) (s : List Char) : Nat → Option Cap
  | 0 => k s
  | n + 1 =>
    match k (s.drop (n + 1)) with
    | some r => some r
    | none => tryFrom k s n

/-- Greedy `+` backtracking: try `n` characters down to `1`. -/
def tryDown1 (k : List Char → Option Cap) (s : List Char) : Nat → Option Cap
  | 0 => none
  | n + 1 =>
    match k (s.drop (n + 1)) with
    | some r => some r
    | none => tryDown1 k s n

/-- Lazy quantifier: try the listed consumption amounts in order. -/
def firstSome (k : List Char → Option Cap) (s : List Char) : List Nat → Option Cap
  | [] => none
  | i :: is =>
    match k (s.drop i) with
    | some r => some r
    | none => firstSome k s is

/-- Run a pattern at the start of `s` with continuation `k`, in Python's
backtracking order.  The capture group records the characters its body
consumed on the overall successful path. -/
def reRun : RE → List Char → (List Char → Option Cap) → Option Cap
  | .lit l, s, k =>
    match dropPre l s with
    | some t => k t
    | none => none
  | .star p, s, k => tryFrom k s (leadCount p s)
  | .more p, s, k => tryDown1 k s (leadCount p s)
  | .lazyMore p, s, k => firstSome k s (List.range' 1 (leadCount p s))
  | .opt p, s, k =>
    match s with
    | [] => k []
    | c :: cs =>
      if p c then
        match k cs with
        | some r => some r
        | none => k s
      else k s
  | .cat a b, s, k => reRun a s (fun s1 => reRun b s1 k)
  | .alt a b, s, k =>
    match reRun a s k with
    | some r => some r
    | none => reRun b s k
  | .group r, s, k =>
    reRun r s (fun s1 =>
      match k s1 with
      | some _ => some (some (s.take (s.length - s1.length)))
      | none => none)
  | .eos, s, k =>
    match s with
    | [] => k []
    | _ :: _ => none

/-- The top continuation: the pattern has matched; no capture recorded yet. -/
def topK : List Char → Option Cap := fun _ => some none

/-- `re.search`: try each start position left to right. -/
def reSearch (r : RE) : List Char → Option Cap
  | [] =>
    match reRun r [] topK with
    | some c => some c
    | none => none
  | c :: cs =>
    match reRun r (c :: cs) topK with
    | some c2 => some c2
    | none => reSearch r cs

/-- `re.search(...)` followed by `.group(1)`: the capture of the leftmost
match.  (On every success path of the five patterns the group participates.) -/
def searchG (r : RE) (s : List Char) : Option (List Char) :=
  match reSearch r s with
  | some (some c) => some c
  | _ => none

/-! ## The five patterns of src/api/index.py -/

/-- The class `[^",]`. -/
def noQC (c : Char) : Bool := !(c == '"' || c == ',')

/-- The class `[^,]`. -/
def noC (c : Char) : Bool := !(c == ',')

/-- The class `[^,\n]`. -/
def noCN (c : Char) : Bool := !(c == ',' || c == '\n')

/-- The class `.` (any character but newline). -/
def dotP (c : Char) : Bool := !(c == '\n')

/-- `Song:\s*\"?([^\",]+)\"?(?:,\s*Artist:|$)` (sensor endpoint). -/
def sensorSongRE : RE :=
  .cat (.lit "Song:".data)
    (.cat (.star wsP)
      (.cat (.opt (fun c => c == '"'))
        (.cat (.group (.more noQC))
          (.cat (.opt (fun c => c == '"'))
            (.alt (.cat (.lit ",".data) (.cat (.star wsP) (.lit "Artist:".data)))
              .eos)))))

/-- `Artist:\s*([^,]+)(?:,\s*Lighting:|$)` (sensor endpoint). -/
def sensorArtistRE : RE :=
  .cat (.lit "Artist:".data)
    (.cat (.star wsP)
      (.cat (.group (.more noC))
        (.alt (.cat (.lit ",".data) (.cat (.star wsP) (.lit "Lighting:".data)))
          .eos)))

/-- `Lighting:\s*([^,\n]+)` (sensor endpoint). -/
def sensorLightingRE : RE :=
  .cat (.lit "Lighting:".data)
    (.cat (.star wsP)
      (.group (.more noCN)))

/-- `Song:\s*([^,]+),\s*Artist:` (spotify endpoint). -/
def spotifySongRE : RE :=
  .cat (.lit "Song:".data)
    (.cat (.star wsP)
      (.cat (.group (.more noC))
        (.cat (.lit ",".data)
          (.cat (.star wsP) (.lit "Artist:".data)))))

/-- `Artist:\s*(.+?)(?:\n|$)` (spotify endpoint). -/
def spotifyArtistRE : RE :=
  .cat (.lit "Artist:".data)
    (.cat (.star wsP)
      (.cat (.group (.lazyMore dotP))
        (.alt (.lit "\n".data) .eos)))

/-! ## Field extraction (already-cleaned subject) -/

def sensorSongOf (t : List Char) : List Char :=
  match searchG sensorSongRE t with
  | some c => pyStrip c
  | none => "Sweet but Psycho".data

def sensorArtistOf (t : List Char) : List Char :=
  match searchG sensorArtistRE t with
  | some c => pyStrip c
  | none => "Ava Max".data

def sensorLightingOf (t : List Char) : List Char :=
  match searchG sensorLightingRE t with
  | some c => pyStrip c
  | none => "red".data

def spotifySongOf (t : List Char) : List Char :=
  match searchG spotifySongRE t with
  | some c => pyStrip c
  | none => "Uptown Funk".data

def spotifyArtistOf (t : List Char) : List Char :=
  match searchG spotifyArtistRE t with
  | some c => pyStrip c
  | none => "Mark Ronson".data

/-- The sensor-context parser: clean the provider reply, then extract
song, artist and lighting. -/
def parseSensor (raw : List Char) : List Char × List Char × List Char :=
  let t := cleanText raw
  (sensorSongOf t, sensorArtistOf t, sensorLightingOf t)

/-- The playback-context parser: clean the provider reply, then extract
song and artist. -/
def parseSpotify (raw : List Char) : List Char × List Char :=
  let t := cleanText raw
  (spotifySongOf t, spotifyArtistOf t)

/-! ## Mood classifier and pulse history -/

/-- One stored pulse reading: `{"pulse": float, "timestamp": float}`.
Pulse values are modelled as rationals (only order comparisons are
performed on them). -/
structure Reading where
  pulse : ℚ
  timestamp : ℚ
deriving DecidableEq

/-- The trend computation inside `infer_mood`: when the history has at
least two entries, compare `recent_pulses[-1]` with `recent_pulses[-2]`
(the reverse-pattern binds exactly those two); otherwise "stable". -/
def trendOf (history : List Reading) : String :=
  match history.reverse with
  | a :: b :: _ =>
    if a.pulse > b.pulse then "rising"
    else if a.pulse < b.pulse then "falling"
    else "stable"
  | _ => "stable"

/-- `infer_mood(pulse, history)` from src/api/index.py. -/
def inferMood (pulse : ℚ) (history : List Reading) : String :=
  let trend := trendOf history
  if pulse > 100 ∧ (trend = "rising" ∨ trend = "stable") then "excited"
  else if pulse < 80 ∧ (trend = "falling" ∨ trend = "stable") then "chill"
  else if 80 ≤ pulse ∧ pulse ≤ 100 then "festive"
  else "hyped"

/-- Append on `deque(maxlen=3)`: when full, the oldest (leftmost) entry is
discarded. -/
def dequeAppend (h : List Reading) (x : Reading) : List Reading :=
  if h.length < 3 then h ++ [x] else h.tail ++ [x]

/-- `pulse_history[-1]["pulse"] if pulse_history else 80` (spotify endpoint). -/
def latestPulse (st : List Reading) : ℚ :=
  match st.getLast? with
  | some r => r.pulse
  | none => 80

/-- The mood the spotify endpoint computes from the current history. -/
def spotifyMood (st : List Reading) : String :=
  inferMood (latestPulse st) st

/-! ## Request handlers as state-passing functions

The JSON pulse field is a number or a string; `float(...)` on it either
yields a rational or raises, modelled by `Except`.  The external completion
call's outcome (the only other failure point the handlers have) is a
parameter: `.ok text` is the provider reply, `.error e` a raised exception
with message `e`.  A handler returns the HTTP response and the new pulse
history. -/

inductive JVal where
  | num : ℚ → JVal
  | str : List Char → JVal
deriving DecidableEq

/-- Accumulate decimal digits. -/
def digitsToNat (acc : Nat) : List Char → Nat
  | [] => acc
  | c :: cs => digitsToNat (10 * acc + (c.toNat - 48)) cs

/-- A Python digit run with underscores, `digit (["_"] digit)*`: collects
digits (underscores removed, reversed into `acc`) and stops before anything
else; an underscore not followed by a digit is left unconsumed, which makes
the whole literal invalid at the caller. -/
def digRunGo (acc : List Char) : List Char → List Char × List Char
  | '_' :: d :: rest =>
    if d.isDigit then digRunGo (d :: acc) rest else (acc, '_' :: d :: rest)
  | d :: rest =>
    if d.isDigit then digRunGo (d :: acc) rest else (acc, d :: rest)
  | [] => (acc, [])

/-- Parse a digit run with underscores from the front: the digits (in
order, underscores removed) and the unconsumed rest; `none` without a
leading digit. -/
def digRun : List Char → Option (List Char × List Char)
  | c :: cs =>
    if c.isDigit then
      let r := digRunGo [c] cs
      some (r.1.reverse, r.2)
    else none
  | [] => none

/-- The optional exponent tail of a float literal: end of input, or
`e`/`E`, an optional sign and a digit run consuming everything left. -/
def expTail (m : ℚ) : List Char → Option ℚ
  | [] => some m
  | c :: rest =>
    if c == 'e' || c == 'E' then
      match rest with
      | '+' :: r2 =>
        match digRun r2 with
        | some (ds, []) => some (m * 10 ^ digitsToNat 0 ds)
        | _ => none
      | '-' :: r2 =>
        match digRun r2 with
        | some (ds, []) => some (m / 10 ^ digitsToNat 0 ds)
        | _ => none
      | r2 =>
        match digRun r2 with
        | some (ds, []) => some (m * 10 ^ digitsToNat 0 ds)
        | _ => none
    else none

/-- The body of a finite Python float literal (after stripping and sign):
`digitpart ["." [digitpart]] [exponent]` or `"." digitpart [exponent]`,
with underscored digit runs.  The value is the exact rational of the
literal: the claims compare pulses only against the integer thresholds 80
and 100, so the double rounding of `float` is not modelled, consistent
with the rational embedding of pulse values. -/
def finBody (u : List Char) : Option ℚ :=
  match digRun u with
  | some (ip, rest) =>
    match rest with
    | '.' :: r2 =>
      match digRun r2 with
      | some (fp, r3) =>
        expTail ((digitsToNat 0 ip : ℚ) + (digitsToNat 0 fp : ℚ) / 10 ^ fp.length) r3
      | none => expTail (digitsToNat 0 ip : ℚ) r2
    | _ => expTail (digitsToNat 0 ip : ℚ) rest
  | none =>
    match u with
    | '.' :: r2 =>
      match digRun r2 with
      | some (fp, r3) => expTail ((digitsToNat 0 fp : ℚ) / 10 ^ fp.length) r3
      | none => none
    | _ => none

/-- Strip one optional leading sign; `true` means negative. -/
def splitSign : List Char → Bool × List Char
  | '+' :: u => (false, u)
  | '-' :: u => (true, u)
  | u => (false, u)

/-- The non-finite float spellings `float` accepts after the optional
sign, case-insensitively. -/
def infNanBody (u : List Char) : Bool :=
  let l := u.map Char.toLower
  l == "inf".data || l == "infinity".data || l == "nan".data

/-- `float(s)` on a string, finite values: strip, optional sign, finite
body.  `none` when the grammar rejects — and for the accepted non-finite
spellings, which have no rational value; theorems that assert the raising
behaviour therefore hypothesise `pyFloatAccepts s = false`, which counts
those spellings as accepted. -/
def parseFloatChars (s : List Char) : Option ℚ :=
  let p := splitSign (floatStrip s)
  (finBody p.2).map (fun q => if p.1 then -q else q)

/-- Whether Python `float(s)` succeeds: after stripping and the optional
sign, a finite body or a non-finite spelling.  Exact for subjects whose
stripped form is ASCII (beyond ASCII Python additionally accepts Unicode
decimal digits, which no claim involves). -/
def pyFloatAccepts (s : List Char) : Bool :=
  let p := splitSign (floatStrip s)
  (finBody p.2).isSome || infNanBody p.2

/-- All characters are ASCII. -/
def asciiOnly (s : List Char) : Bool := s.all (fun c => c.toNat < 128)

/-- A lowercase hexadecimal digit. -/
def hexDig (n : Nat) : Char :=
  if n < 10 then Char.ofNat (48 + n) else Char.ofNat (87 + n)

def hex2 (n : Nat) : List Char := [hexDig (n / 16 % 16), hexDig (n % 16)]

def hex4 (n : Nat) : List Char := hex2 (n / 256) ++ hex2 (n % 256)

def hex8 (n : Nat) : List Char := hex4 (n / 65536) ++ hex4 (n % 65536)

/-- The single-quote character (written by code point to keep string
literals free of quote characters). -/
def squote : Char := Char.ofNat 39

/-- One character of a Python string repr quoted with `qc`: backslash and
the quote character are escaped, `\n`, `\r`, `\t` use their short escapes,
printable ASCII stands for itself, everything else is a hex escape.
(CPython leaves printable non-ASCII unescaped; the strings the claims
evaluate contain, beyond ASCII, only whitespace characters, which CPython
escapes exactly like this.) -/
def reprChar (qc : Char) (c : Char) : List Char :=
  if c == '\\' then ['\\', '\\']
  else if c == qc then ['\\', qc]
  else if c == '\n' then ['\\', 'n']
  else if c == '\r' then ['\\', 'r']
  else if c == '\t' then ['\\', 't']
  else if 32 ≤ c.toNat ∧ c.toNat ≤ 126 then [c]
  else if c.toNat < 256 then '\\' :: 'x' :: hex2 c.toNat
  else if c.toNat < 65536 then '\\' :: 'u' :: hex4 c.toNat
  else '\\' :: 'U' :: hex8 c.toNat

/-- Python `repr` of a string: single-quoted, or double-quoted when the
string contains a single quote but no double quote. -/
def pyRepr (s : List Char) : List Char :=
  let qc := if s.contains squote && !(s.contains '"') then '"' else squote
  qc :: ((s.map (reprChar qc)).flatten ++ [qc])

/-- The `ValueError` message of a failed `float(s)`: it quotes the repr of
the original, unstripped string. -/
def floatErrMsg (s : List Char) : List Char :=
  "could not convert string to float: ".data ++ pyRepr s

/-- `float(v)` on a JSON value: numbers convert, strings parse or raise
`ValueError` with the repr-quoting message. -/
def pyFloat : JVal → Except (List Char) ℚ
  | .num q => .ok q
  | .str s =>
    match parseFloatChars s with
    | some q => .ok q
    | none => .error (floatErrMsg s)

/-- `float(data.get('pulse', 80))`: the missing field defaults to the
number 80 before conversion. -/
def floatOfPulseField (f : Option JVal) : Except (List Char) ℚ :=
  pyFloat (f.getD (JVal.num 80))

/-- An HTTP response: status code and JSON body as ordered string fields. -/
structure HttpResp where
  code : Nat
  body : List (List Char × List Char)
deriving DecidableEq

/-- `jsonify({"status": "error", "message": str(e)}), 500`. -/
def errResp (msg : List Char) : HttpResp :=
  ⟨500, [("status".data, "error".data), ("message".data, msg)]⟩

/-- `POST /sensor`: parse the pulse (a raised `ValueError` reaches the
boundary), append the reading, infer the mood, call the provider (a raised
error reaches the boundary), parse the reply, answer. -/
def sensorHandler (pulseField : Option JVal) (st : List Reading) (now : ℚ)
    (llm : Except (List Char) (List Char)) : HttpResp × List Reading :=
  match floatOfPulseField pulseField with
  | .error e => (errResp e, st)
  | .ok pulse =>
    let st2 := dequeAppend st ⟨pulse, now⟩
    let mood := inferMood pulse st2
    match llm with
    | .error e => (errResp e, st2)
    | .ok text =>
      let r := parseSensor text
      (⟨200, [("mood".data, mood.data), ("song".data, r.1),
              ("artist".data, r.2.1), ("lighting".data, r.2.2),
              ("status".data, "success".data)]⟩, st2)

/-- `POST /spotify`: the playback fields only feed the prompt text, which
no claim observes, so they are not modelled; the history is read (latest
pulse, mood) and never written. -/
def spotifyHandler (st : List Reading)
    (llm : Except (List Char) (List Char)) : HttpResp × List Reading :=
  match llm with
  | .error e => (errResp e, st)
  | .ok text =>
    let r := parseSpotify text
    (⟨200, [("artist".data, r.2), ("song".data, r.1),
            ("status".data, "success".data)]⟩, st)

/-! ## Predicates used by the statements -/

/-- The first character (if any) does not satisfy `p`. -/
def headNot (p : Char → Bool) : List Char → Bool
  | [] => true
  | c :: _ => !p c

/-- A well-formed field value: nonempty, free of `,` and `"`, and not
starting or ending with whitespace. -/
def goodVal (s : List Char) : Bool :=
  !s.isEmpty && s.all noQC && headNot wsP s && headNot wsP s.reverse

/-- A well-formed playback artist value: nonempty, newline-free and not
starting or ending with whitespace (commas, quotes and colons are
allowed, unlike in `goodVal`). -/
def goodValA (s : List Char) : Bool :=
  !s.isEmpty && s.all dotP && headNot wsP s && headNot wsP s.reverse

/-- `L` occurs as a substring (at any position, end included). -/
def occursIn (L : List Char) : List Char → Bool
  | [] => (dropPre L []).isSome
  | c :: cs => (dropPre L (c :: cs)).isSome || occursIn L cs

/-! ## Engine lemmas -/

theorem dropPre_append (l t : List Char) : dropPre l (l ++ t) = some t := by
  induction l with
  | nil => rfl
  | cons c cs ih => simp [dropPre, ih]

theorem reRun_cat {a b : RE} {s k} :
    reRun (.cat a b) s k = reRun a s (fun s1 => reRun b s1 k) := rfl

theorem reRun_group_eq {r : RE} {s k} :
    reRun (.group r) s k = reRun r s (fun s1 =>
      match k s1 with
      | some _ => some (some (s.take (s.length - s1.length)))
      | none => none) := rfl

theorem reRun_lit_eq {l s t : List Char} {k} (h : dropPre l s = some t) :
    reRun (.lit l) s k = k t := by
  simp [reRun, h]

theorem headNot_append {p : Char → Bool} {s t : List Char}
    (h1 : s ≠ []) (h2 : headNot p s = true) : headNot p (s ++ t) = true := by
  cases s with
  | nil => exact absurd rfl h1
  | cons c cs => exact h2

theorem leadCount_append {p : Char → Bool} {u t : List Char}
    (hu : u.all p = true) (ht : headNot p t = true) :
    leadCount p (u ++ t) = u.length := by
  induction u with
  | nil =>
    cases t with
    | nil => rfl
    | cons c cs =>
      simp only [headNot, Bool.not_eq_true'] at ht
      simp [leadCount, ht]
  | cons a u ih =>
    simp only [List.all_cons, Bool.and_eq_true] at hu
    simp [leadCount, hu.1, ih hu.2]

theorem tryFrom_first {k s r} {n : Nat} (h : k (s.drop n) = some r) :
    tryFrom k s n = some r := by
  cases n with
  | zero => simpa using h
  | succ m => simp [tryFrom, h]

theorem tryDown1_first {k s r} {m : Nat} (h : k (s.drop (m + 1)) = some r) :
    tryDown1 k s (m + 1) = some r := by
  simp [tryDown1, h]

theorem reRun_star {p : Char → Bool} {u t : List Char} {k r}
    (hu : u.all p = true) (ht : headNot p t = true) (hk : k t = some r) :
    reRun (.star p) (u ++ t) k = some r := by
  show tryFrom k (u ++ t) (leadCount p (u ++ t)) = some r
  rw [leadCount_append hu ht]
  apply tryFrom_first
  rw [List.drop_left]
  exact hk

theorem reRun_more {p : Char → Bool} {u t : List Char} {k r}
    (hu : u.all p = true) (hne : u ≠ []) (ht : headNot p t = true)
    (hk : k t = some r) : reRun (.more p) (u ++ t) k = some r := by
  show tryDown1 k (u ++ t) (leadCount p (u ++ t)) = some r
  rw [leadCount_append hu ht]
  cases u with
  | nil => exact absurd rfl hne
  | cons a u =>
    apply tryDown1_first
    have hd : ((a :: u) ++ t).drop (u.length + 1) = t := by
      have := List.drop_left (a :: u) t
      simp only [List.length_cons] at this
      exact this
    rw [hd]
    exact hk

theorem reRun_opt_no {q : Char → Bool} {s : List Char} {k}
    (h : headNot q s = true) : reRun (.opt q) s k = k s := by
  cases s with
  | nil => rfl
  | cons c cs =>
    simp only [headNot, Bool.not_eq_true'] at h
    simp [reRun, h]

theorem reRun_alt_left {a b : RE} {s k r} (h : reRun a s k = some r) :
    reRun (.alt a b) s k = some r := by
  simp [reRun, h]

theorem reSearch_of_run {r : RE} {s : List Char} {c}
    (h : reRun r s topK = some c) : reSearch r s = some c := by
  cases s with
  | nil => simp [reSearch, h]
  | cons a as => simp [reSearch, h]

/-- A pattern that begins with a literal matches nowhere in a string in
which that literal does not occur. -/
theorem reSearch_cat_lit_none {L : List Char} {r : RE} {s : List Char}
    (h : occursIn L s = false) : reSearch (.cat (.lit L) r) s = none := by
  induction s with
  | nil =>
    simp only [occursIn] at h
    cases hd : dropPre L [] with
    | some t => rw [hd] at h; simp at h
    | none => simp [reSearch, reRun_cat, reRun, hd]
  | cons a as ih =>
    simp only [occursIn, Bool.or_eq_false_iff] at h
    obtain ⟨h1, h2⟩ := h
    cases hd : dropPre L (a :: as) with
    | some t => rw [hd] at h1; simp at h1
    | none =>
      have hr : reRun (.cat (.lit L) r) (a :: as) topK = none := by
        simp [reRun_cat, reRun, hd]
      simp [reSearch, hr, ih h2]

/-- Matching `lit L`, then `\s*`, then the single capture group `(g+)`,
then `b`, against `L ++ " " ++ s ++ t` where `s` is a maximal nonempty
run of `g`-characters: the group captures exactly `s`. -/
theorem run_lit_star_group_more {L : List Char} {g : Char → Bool} {b : RE}
    {s t : List Char} {k : List Char → Option Cap} {x : Cap}
    (h1 : s ≠ []) (h2 : s.all g = true) (h3 : headNot wsP s = true)
    (h4 : headNot g t = true)
    (h5 : reRun b t k = some x) :
    reRun (.cat (.lit L) (.cat (.star wsP) (.cat (.group (.more g)) b)))
      (L ++ (' ' :: (s ++ t))) k = some (some s) := by
  rw [reRun_cat, reRun_lit_eq (dropPre_append L (' ' :: (s ++ t)))]
  show reRun (.cat (.star wsP) (.cat (.group (.more g)) b)) (' ' :: (s ++ t)) k
      = some (some s)
  rw [reRun_cat]
  apply reRun_star (u := [' ']) (by decide) (headNot_append h1 h3)
  show reRun (.cat (.group (.more g)) b) (s ++ t) k = some (some s)
  rw [reRun_cat, reRun_group_eq]
  apply reRun_more h2 h1 h4
  show (match reRun b t k with
    | some _ => some (some ((s ++ t).take ((s ++ t).length - t.length)))
    | none => none) = some (some s)
  rw [h5]
  rw [List.length_append, Nat.add_sub_cancel, List.take_left]

/-- The same shape with an optional quote before the group (the sensor
song pattern), on an unquoted value. -/
theorem run_lit_star_opt_group_more {L : List Char} {q g : Char → Bool} {b : RE}
    {s t : List Char} {k : List Char → Option Cap} {x : Cap}
    (h1 : s ≠ []) (h2 : s.all g = true) (h3 : headNot wsP s = true)
    (h3q : headNot q s = true) (h4 : headNot g t = true)
    (h5 : reRun b t k = some x) :
    reRun (.cat (.lit L) (.cat (.star wsP)
        (.cat (.opt q) (.cat (.group (.more g)) b))))
      (L ++ (' ' :: (s ++ t))) k = some (some s) := by
  rw [reRun_cat, reRun_lit_eq (dropPre_append L (' ' :: (s ++ t)))]
  show reRun (.cat (.star wsP) (.cat (.opt q) (.cat (.group (.more g)) b)))
      (' ' :: (s ++ t)) k = some (some s)
  rw [reRun_cat]
  apply reRun_star (u := [' ']) (by decide) (headNot_append h1 h3)
  show reRun (.cat (.opt q) (.cat (.group (.more g)) b)) (s ++ t) k = some (some s)
  rw [reRun_cat, reRun_opt_no (headNot_append h1 h3q)]
  show reRun (.cat (.group (.more g)) b) (s ++ t) k = some (some s)
  rw [reRun_cat, reRun_group_eq]
  apply reRun_more h2 h1 h4
  show (match reRun b t k with
    | some _ => some (some ((s ++ t).take ((s ++ t).length - t.length)))
    | none => none) = some (some s)
  rw [h5]
  rw [List.length_append, Nat.add_sub_cancel, List.take_left]

theorem dropWhile_of_headNot {p : Char → Bool} {s : List Char}
    (h : headNot p s = true) : s.dropWhile p = s := by
  cases s with
  | nil => rfl
  | cons c cs =>
    simp only [headNot, Bool.not_eq_true'] at h
    simp [List.dropWhile_cons, h]

theorem pyStrip_id {s : List Char} (h1 : headNot wsP s = true)
    (h2 : headNot wsP s.reverse = true) : pyStrip s = s := by
  unfold pyStrip stripEnds
  rw [dropWhile_of_headNot h1, dropWhile_of_headNot h2, List.reverse_reverse]

theorem all_mono {p q : Char → Bool} {s : List Char}
    (himp : ∀ c, p c = true → q c = true) (h : s.all p = true) : s.all q = true := by
  induction s with
  | nil => rfl
  | cons c cs ih =>
    simp only [List.all_cons, Bool.and_eq_true] at h ⊢
    exact ⟨himp c h.1, ih h.2⟩

theorem headNot_of_all {p q : Char → Bool} {s : List Char}
    (himp : ∀ c, p c = true → q c = false) (h : s.all p = true) : headNot q s = true := by
  cases s with
  | nil => rfl
  | cons c cs =>
    simp only [List.all_cons, Bool.and_eq_true] at h
    simp [headNot, himp c h.1]

theorem noQC_imp_noC : ∀ c, noQC c = true → noC c = true := by
  intro c hc
  simp only [noQC, Bool.not_eq_true', Bool.or_eq_false_iff] at hc
  simp [noC, hc.2]

theorem noQC_imp_notQuote : ∀ c, noQC c = true → (c == '"') = false := by
  intro c hc
  simp only [noQC, Bool.not_eq_true', Bool.or_eq_false_iff] at hc
  exact hc.1

theorem goodVal_parts {s : List Char} (h : goodVal s = true) :
    s ≠ [] ∧ s.all noQC = true ∧ headNot wsP s = true ∧ headNot wsP s.reverse = true := by
  simp only [goodVal, Bool.and_eq_true] at h
  obtain ⟨⟨⟨e, a⟩, w1⟩, w2⟩ := h
  refine ⟨?_, a, w1, w2⟩
  intro hnil
  subst hnil
  simp at e

theorem goodValA_parts {s : List Char} (h : goodValA s = true) :
    s ≠ [] ∧ s.all dotP = true ∧ headNot wsP s = true ∧ headNot wsP s.reverse = true := by
  simp only [goodValA, Bool.and_eq_true] at h
  obtain ⟨⟨⟨e, a⟩, w1⟩, w2⟩ := h
  refine ⟨?_, a, w1, w2⟩
  intro hnil
  subst hnil
  simp at e

theorem reRun_lazy_eq {p : Char → Bool} {s : List Char} {k} :
    reRun (.lazyMore p) s k = firstSome k s (List.range' 1 (leadCount p s)) := rfl

theorem leadCount_all {p : Char → Bool} {s : List Char} (h : s.all p = true) :
    leadCount p s = s.length := by
  have := leadCount_append (t := []) h (by rfl)
  simpa using this

theorem all_drop {p : Char → Bool} {s : List Char} (h : s.all p = true) (i : Nat) :
    (s.drop i).all p = true := by
  rw [List.all_eq_true] at h ⊢
  intro x hx
  exact h x (List.drop_subset i s hx)

/-- The lazy quantifier takes the first consumption amount in `[lo, lo+n)`
at which the continuation succeeds. -/
theorem firstSome_at {k : List Char → Option Cap} {s : List Char} {r : Cap}
    {lo n t : Nat}
    (hfail : ∀ i, lo ≤ i → i < t → k (s.drop i) = none)
    (hk : k (s.drop t) = some r) (h1 : lo ≤ t) (h2 : t < lo + n) :
    firstSome k s (List.range' lo n) = some r := by
  induction n generalizing lo with
  | zero => omega
  | succ m ih =>
    rw [List.range'_succ]
    by_cases hlo : lo = t
    · subst hlo
      simp [firstSome, hk]
    · have h0 : k (s.drop lo) = none := hfail lo (le_refl lo) (by omega)
      simp only [firstSome, h0]
      exact ih (fun i hi1 hi2 => hfail i (by omega) hi2) (by omega) (by omega)

/-- The playback artist pattern on `Artist: ` followed by a nonempty
newline-free value ending the input: the lazy `.+?` grows to the end and
the group captures the whole value — commas included. -/
theorem run_artist_lazy {s : List Char} (h1 : s ≠ []) (h2 : s.all dotP = true)
    (h3 : headNot wsP s = true) :
    reRun spotifyArtistRE ("Artist:".data ++ (' ' :: s)) topK = some (some s) := by
  rw [show spotifyArtistRE
      = .cat (.lit "Artist:".data) (.cat (.star wsP)
          (.cat (.group (.lazyMore dotP)) (.alt (.lit "\n".data) .eos))) from rfl]
  rw [reRun_cat, reRun_lit_eq (dropPre_append "Artist:".data (' ' :: s))]
  show reRun (.cat (.star wsP)
      (.cat (.group (.lazyMore dotP)) (.alt (.lit "\n".data) .eos))) (' ' :: s) topK
      = some (some s)
  rw [reRun_cat]
  apply reRun_star (u := [' ']) (by decide) h3
  show reRun (.cat (.group (.lazyMore dotP)) (.alt (.lit "\n".data) .eos)) s topK
      = some (some s)
  rw [reRun_cat, reRun_group_eq, reRun_lazy_eq, leadCount_all h2]
  apply firstSome_at (t := s.length)
  · intro i hi1 hi2
    obtain ⟨c, cs, hc⟩ : ∃ c cs, s.drop i = c :: cs := by
      cases hd : s.drop i with
      | nil =>
        have := congrArg List.length hd
        rw [List.length_drop] at this
        simp at this
        omega
      | cons c cs => exact ⟨c, cs, rfl⟩
    have hcd : dotP c = true := by
      have hall := all_drop h2 i
      rw [hc, List.all_cons, Bool.and_eq_true] at hall
      exact hall.1
    have hne2 : ('\n' == c) = false := by
      have hcn : (c == '\n') = false := by
        simp only [dotP, Bool.not_eq_true'] at hcd
        exact hcd
      simp only [beq_eq_false_iff_ne] at hcn ⊢
      exact fun h => hcn h.symm
    have hlit : dropPre "\n".data (c :: cs) = none := by
      simp [dropPre, hne2]
    have halt : reRun (.alt (.lit "\n".data) .eos) (c :: cs) topK = none := by
      simp [reRun, hlit]
    show (match reRun (.alt (.lit "\n".data) .eos) (s.drop i) topK with
      | some _ => some (some (s.take (s.length - (s.drop i).length)))
      | none => none) = none
    rw [hc, halt]
  · show (match reRun (.alt (.lit "\n".data) .eos) (s.drop s.length) topK with
      | some _ => some (some (s.take (s.length - (s.drop s.length).length)))
      | none => none) = some (some s)
    rw [List.drop_length]
    show (some (some (s.take (s.length - ([] : List Char).length))) : Option Cap)
        = some (some s)
    simp
  · have : 0 < s.length := List.length_pos.mpr h1
    omega
  · omega

/-- A well-formed value placed after `Artist: ` at the end of the playback
reply is captured exactly, commas and all. -/
theorem spotifyArtist_good {s : List Char} (hs : goodValA s = true) :
    spotifyArtistOf ("Artist: ".data ++ s) = s := by
  obtain ⟨h1, h2, h3, h4⟩ := goodValA_parts hs
  have eI : "Artist: ".data ++ s = "Artist:".data ++ (' ' :: s) := by
    rw [show "Artist: ".data = "Artist:".data ++ [' '] from rfl]
    simp
  have hrun : reRun spotifyArtistRE ("Artist: ".data ++ s) topK = some (some s) := by
    rw [eI]
    exact run_artist_lazy h1 h2 h3
  have hsg : searchG spotifyArtistRE ("Artist: ".data ++ s) = some s := by
    unfold searchG
    rw [reSearch_of_run hrun]
  unfold spotifyArtistOf
  rw [hsg]
  exact pyStrip_id h3 h4

/-- A rejected float string has no finite value either. -/
theorem accepts_false_none {s : List Char} (h : pyFloatAccepts s = false) :
    parseFloatChars s = none := by
  simp only [pyFloatAccepts] at h
  simp only [parseFloatChars]
  cases hb : finBody (splitSign (floatStrip s)).2 with
  | some q => rw [hb] at h; simp at h
  | none => rfl

/-- A well-formed value placed after `Song: ` in the sensor reply is
captured exactly (the suffix after it is the canonical continuation). -/
theorem sensorSong_good {s : List Char} (hs : goodVal s = true) :
    sensorSongOf ("Song: ".data ++ s ++ ", Artist: The Weeknd, Lighting: blue".data)
      = s := by
  obtain ⟨h1, h2, h3, h4⟩ := goodVal_parts hs
  have eI : ("Song: ".data ++ s) ++ ", Artist: The Weeknd, Lighting: blue".data
      = "Song:".data ++ (' ' :: (s ++ ", Artist: The Weeknd, Lighting: blue".data)) := by
    rw [show "Song: ".data = "Song:".data ++ [' '] from rfl]
    simp [List.append_assoc]
  have hrun : reRun sensorSongRE
      ("Song: ".data ++ s ++ ", Artist: The Weeknd, Lighting: blue".data) topK
      = some (some s) := by
    rw [eI]
    exact run_lit_star_opt_group_more h1 h2 h3
      (headNot_of_all noQC_imp_notQuote h2) (by decide) (x := none) (by decide)
  have hsg : searchG sensorSongRE
      ("Song: ".data ++ s ++ ", Artist: The Weeknd, Lighting: blue".data) = some s := by
    unfold searchG
    rw [reSearch_of_run hrun]
  unfold sensorSongOf
  rw [hsg]
  exact pyStrip_id h3 h4

/-- A well-formed value placed after `Song: ` in the playback reply is
captured exactly. -/
theorem spotifySong_good {s : List Char} (hs : goodVal s = true) :
    spotifySongOf ("Song: ".data ++ s ++ ", Artist: Dua Lipa".data) = s := by
  obtain ⟨h1, h2, h3, h4⟩ := goodVal_parts hs
  have eI : ("Song: ".data ++ s) ++ ", Artist: Dua Lipa".data
      = "Song:".data ++ (' ' :: (s ++ ", Artist: Dua Lipa".data)) := by
    rw [show "Song: ".data = "Song:".data ++ [' '] from rfl]
    simp [List.append_assoc]
  have hrun : reRun spotifySongRE
      ("Song: ".data ++ s ++ ", Artist: Dua Lipa".data) topK = some (some s) := by
    rw [eI]
    exact run_lit_star_group_more h1 (all_mono noQC_imp_noC h2) h3
      (by decide) (x := none) (by decide)
  have hsg : searchG spotifySongRE
      ("Song: ".data ++ s ++ ", Artist: Dua Lipa".data) = some s := by
    unfold searchG
    rw [reSearch_of_run hrun]
  unfold spotifySongOf
  rw [hsg]
  exact pyStrip_id h3 h4

/-- A pattern whose head literal does not occur in the subject finds
nothing. -/
theorem searchG_none {r0 : RE} {L : List Char} {b : RE} {t : List Char}
    (hr : r0 = .cat (.lit L) b) (h : occursIn L t = false) : searchG r0 t = none := by
  subst hr
  unfold searchG
  rw [reSearch_cat_lit_none h]

theorem sensorSongOf_noLabel {t : List Char} (h : occursIn "Song:".data t = false) :
    sensorSongOf t = "Sweet but Psycho".data := by
  have hx : searchG sensorSongRE t = none := searchG_none rfl h
  unfold sensorSongOf
  rw [hx]

theorem sensorArtistOf_noLabel {t : List Char} (h : occursIn "Artist:".data t = false) :
    sensorArtistOf t = "Ava Max".data := by
  have hx : searchG sensorArtistRE t = none := searchG_none rfl h
  unfold sensorArtistOf
  rw [hx]

theorem sensorLightingOf_noLabel {t : List Char} (h : occursIn "Lighting:".data t = false) :
    sensorLightingOf t = "red".data := by
  have hx : searchG sensorLightingRE t = none := searchG_none rfl h
  unfold sensorLightingOf
  rw [hx]

theorem spotifySongOf_noLabel {t : List Char} (h : occursIn "Song:".data t = false) :
    spotifySongOf t = "Uptown Funk".data := by
  have hx : searchG spotifySongRE t = none := searchG_none rfl h
  unfold spotifySongOf
  rw [hx]

theorem spotifyArtistOf_noLabel {t : List Char} (h : occursIn "Artist:".data t = false) :
    spotifyArtistOf t = "Mark Ronson".data := by
  have hx : searchG spotifyArtistRE t = none := searchG_none rfl h
  unfold spotifyArtistOf
  rw [hx]

/-- From the empty history, any sequence of deque appends leaves exactly
the (at most) three most recent readings, in arrival order. -/
theorem foldl_dequeAppend (xs : List Reading) :
    List.foldl dequeAppend [] xs = xs.drop (xs.length - 3) := by
  induction xs using List.reverseRecOn with
  | nil => rfl
  | append_singleton ys x ih =>
    rw [List.foldl_append, List.foldl_cons, List.foldl_nil, ih]
    by_cases hn : ys.length < 3
    · have h0 : ys.length - 3 = 0 := by omega
      have h1 : (ys ++ [x]).length - 3 = 0 := by
        simp only [List.length_append, List.length_singleton]
        omega
      rw [h0, List.drop_zero, h1, List.drop_zero]
      unfold dequeAppend
      rw [if_pos hn]
    · have hlen : (ys.drop (ys.length - 3)).length = 3 := by
        rw [List.length_drop]
        omega
      unfold dequeAppend
      rw [if_neg (by omega), List.tail_drop]
      have h2 : (ys ++ [x]).length - 3 = ys.length - 2 := by
        simp only [List.length_append, List.length_singleton]
        omega
      rw [h2, List.drop_append_of_le_length (by omega)]
      have h3 : ys.length - 3 + 1 = ys.length - 2 := by omega
      rw [h3]

/-! ## Claims -/

/-- C1: `infer_mood` always returns one of the four labels and follows the
priority rules: pulse > 100 with trend rising or stable is "excited";
pulse < 80 with trend falling or stable is "chill"; every pulse in
[80, 100] is "festive" regardless of trend; the remaining cases
(pulse > 100 with trend falling, pulse < 80 with trend rising) are
"hyped".  The trend is "stable" for histories shorter than 2 and otherwise
compares the two most recent entries. -/
theorem mood_rules (p : ℚ) (h : List Reading) :
    (inferMood p h = "excited" ∨ inferMood p h = "chill" ∨
     inferMood p h = "festive" ∨ inferMood p h = "hyped")
    ∧ (p > 100 → (trendOf h = "rising" ∨ trendOf h = "stable") →
        inferMood p h = "excited")
    ∧ (p < 80 → (trendOf h = "falling" ∨ trendOf h = "stable") →
        inferMood p h = "chill")
    ∧ (80 ≤ p → p ≤ 100 → inferMood p h = "festive")
    ∧ (p > 100 → trendOf h = "falling" → inferMood p h = "hyped")
    ∧ (p < 80 → trendOf h = "rising" → inferMood p h = "hyped")
    ∧ (h.length < 2 → trendOf h = "stable")
    ∧ (∀ a b r2, h.reverse = a :: b :: r2 →
        trendOf h = if a.pulse > b.pulse then "rising"
          else if a.pulse < b.pulse then "falling" else "stable") := by
  refine ⟨?_, ?_, ?_, ?_, ?_, ?_, ?_, ?_⟩
  · simp only [inferMood]
    split_ifs <;> simp
  · intro hp ht
    simp only [inferMood]
    rw [if_pos ⟨hp, ht⟩]
  · intro hp ht
    simp only [inferMood]
    rw [if_neg (by rintro ⟨c, -⟩; linarith), if_pos ⟨hp, ht⟩]
  · intro h80 h100
    simp only [inferMood]
    rw [if_neg (by rintro ⟨c, -⟩; linarith), if_neg (by rintro ⟨c, -⟩; linarith),
      if_pos ⟨h80, h100⟩]
  · intro hp ht
    have n1 : ¬(p > 100 ∧ (trendOf h = "rising" ∨ trendOf h = "stable")) := by
      rintro ⟨-, hd⟩
      rw [ht] at hd
      rcases hd with h1 | h1 <;> exact absurd h1 (by decide)
    have n2 : ¬(p < 80 ∧ (trendOf h = "falling" ∨ trendOf h = "stable")) := by
      rintro ⟨c, -⟩; linarith
    have n3 : ¬(80 ≤ p ∧ p ≤ 100) := by
      rintro ⟨-, c⟩; linarith
    simp only [inferMood]
    rw [if_neg n1, if_neg n2, if_neg n3]
  · intro hp ht
    have n1 : ¬(p > 100 ∧ (trendOf h = "rising" ∨ trendOf h = "stable")) := by
      rintro ⟨c, -⟩; linarith
    have n2 : ¬(p < 80 ∧ (trendOf h = "falling" ∨ trendOf h = "stable")) := by
      rintro ⟨-, hd⟩
      rw [ht] at hd
      rcases hd with h1 | h1 <;> exact absurd h1 (by decide)
    have n3 : ¬(80 ≤ p ∧ p ≤ 100) := by
      rintro ⟨c, -⟩; linarith
    simp only [inferMood]
    rw [if_neg n1, if_neg n2, if_neg n3]
  · intro hl
    unfold trendOf
    cases hr : h.reverse with
    | nil => rfl
    | cons a tl =>
      cases tl with
      | nil => rfl
      | cons b tl2 =>
        exfalso
        have hlr : h.reverse.length = h.length := List.length_reverse h
        rw [hr] at hlr
        simp only [List.length_cons] at hlr
        omega
  · intro a b r2 hr
    unfold trendOf
    rw [hr]

/-- C1 witness: the classifier at concrete inputs, one per rule. -/
theorem mood_rules_witness :
    inferMood 110 [] = "excited" ∧ inferMood 70 [⟨90, 0⟩, ⟨70, 1⟩] = "chill"
    ∧ inferMood 90 [] = "festive" ∧ inferMood 110 [⟨120, 0⟩, ⟨110, 1⟩] = "hyped" :=
  ⟨(mood_rules 110 []).2.1 (by decide) (Or.inr (by decide)),
   (mood_rules 70 [⟨90, 0⟩, ⟨70, 1⟩]).2.2.1 (by decide) (Or.inl (by decide)),
   (mood_rules 90 []).2.2.2.1 (by decide) (by decide),
   (mood_rules 110 [⟨120, 0⟩, ⟨110, 1⟩]).2.2.2.2.1 (by decide) (by decide)⟩

/-- C2 counterexample: the sensor artist capture keeps its enclosing
quotes; the claimed quote trimming does not happen for that field. -/
theorem quote_trim_cex :
    (parseSensor "Song: A, Artist: \"B\", Lighting: c".data).2.1 = "\"B\"".data
    ∧ "\"B\"".data ≠ "B".data :=
  ⟨by decide, by decide⟩

/-- C2 amended: each field is captured by its own pattern, not by a
uniform rule.  A well-formed (comma-, quote- and whitespace-trimmed)
value after its label is captured exactly and whitespace-trimmed, but:
quote trimming happens only for the sensor song field (one optional quote
on each side); a comma ends a capture only for the comma-excluding
classes (sensor song, sensor artist, sensor lighting, playback song) —
the playback artist capture (lazy `.+?` before `$`) instead runs through
commas to the end of the input; a later field label alone never ends a
capture (the sensor song capture runs through `Artist:` when no comma
intervenes); the sensor song capture must be followed by `, Artist:` or
end of input, and the playback song capture must be followed by
`, Artist:` (otherwise the fallback is used). -/
theorem parser_capture_rules :
    (∀ s : List Char, goodVal s = true →
      sensorSongOf ("Song: ".data ++ s ++ ", Artist: The Weeknd, Lighting: blue".data) = s)
    ∧ (∀ s : List Char, goodVal s = true →
      spotifySongOf ("Song: ".data ++ s ++ ", Artist: Dua Lipa".data) = s)
    ∧ (∀ s : List Char, goodValA s = true →
      spotifyArtistOf ("Artist: ".data ++ s) = s)
    ∧ spotifyArtistOf "Song: X, Artist: A, B".data = "A, B".data
    ∧ sensorArtistOf "Artist: \"The Weeknd\", Lighting: blue".data = "\"The Weeknd\"".data
    ∧ sensorSongOf "Song: \"Some Song\", Artist: B, Lighting: c".data = "Some Song".data
    ∧ sensorSongOf "Song: Hello Artist: X".data = "Hello Artist: X".data
    ∧ spotifySongOf "Song: Hello".data = "Uptown Funk".data
    ∧ sensorLightingOf "Song: A, Artist: B, Lighting: deep blue".data = "deep blue".data
    ∧ spotifyArtistOf "Song: X, Artist: Dua Lipa".data = "Dua Lipa".data :=
  ⟨fun _ hs => sensorSong_good hs, fun _ hs => spotifySong_good hs,
   fun _ hs => spotifyArtist_good hs,
   by decide, by decide, by decide, by decide, by decide, by decide, by decide⟩

/-- C2 witness: the universal capture statements at concrete values — the
playback artist one at a value containing a comma. -/
theorem parser_capture_rules_witness :
    goodVal "Levitating".data = true
    ∧ sensorSongOf ("Song: ".data ++ "Levitating".data
        ++ ", Artist: The Weeknd, Lighting: blue".data) = "Levitating".data
    ∧ spotifySongOf ("Song: ".data ++ "Levitating".data
        ++ ", Artist: Dua Lipa".data) = "Levitating".data
    ∧ goodValA "Dua Lipa, Elton John".data = true
    ∧ spotifyArtistOf ("Artist: ".data ++ "Dua Lipa, Elton John".data)
        = "Dua Lipa, Elton John".data :=
  ⟨by decide, parser_capture_rules.1 "Levitating".data (by decide),
   parser_capture_rules.2.1 "Levitating".data (by decide),
   by decide, parser_capture_rules.2.2.1 "Dua Lipa, Elton John".data (by decide)⟩

/-- C3: the history reachable from empty by deque appends never exceeds
three readings and always equals the most recent readings in arrival
order (FIFO eviction); in particular four appends keep exactly the last
three. -/
theorem history_capacity_fifo (xs : List Reading) :
    (List.foldl dequeAppend [] xs).length ≤ 3
    ∧ List.foldl dequeAppend [] xs = xs.drop (xs.length - 3)
    ∧ ∀ a b c d : Reading, List.foldl dequeAppend [] [a, b, c, d] = [b, c, d] := by
  refine ⟨?_, foldl_dequeAppend xs, ?_⟩
  · rw [foldl_dequeAppend xs, List.length_drop]
    omega
  · intro a b c d
    rfl

/-- C4 counterexample: a present label whose capture is whitespace-only
yields the empty string after trimming, not the fallback literal. -/
theorem empty_capture_cex :
    (parseSensor "Song: , Artist: The Weeknd, Lighting: blue".data).1 = []
    ∧ ([] : List Char) ≠ "Sweet but Psycho".data :=
  ⟨by decide, by decide⟩

/-- C4 amended: the parser is total and each field falls back to its
context's literal exactly when the field's pattern finds no match — in
particular whenever the label does not occur, and on label-free input the
full fallback tuple is returned.  A label whose capture is whitespace-only
instead yields the empty string. -/
theorem parser_fallback_rules :
    (∀ t, occursIn "Song:".data t = false → sensorSongOf t = "Sweet but Psycho".data)
    ∧ (∀ t, occursIn "Artist:".data t = false → sensorArtistOf t = "Ava Max".data)
    ∧ (∀ t, occursIn "Lighting:".data t = false → sensorLightingOf t = "red".data)
    ∧ (∀ t, occursIn "Song:".data t = false → spotifySongOf t = "Uptown Funk".data)
    ∧ (∀ t, occursIn "Artist:".data t = false → spotifyArtistOf t = "Mark Ronson".data)
    ∧ parseSensor "I dont know".data = ("Sweet but Psycho".data, "Ava Max".data, "red".data)
    ∧ parseSpotify "I dont know".data = ("Uptown Funk".data, "Mark Ronson".data)
    ∧ (parseSensor "Song: , Artist: B, Lighting: c".data).1 = [] :=
  ⟨fun _ h => sensorSongOf_noLabel h, fun _ h => sensorArtistOf_noLabel h,
   fun _ h => sensorLightingOf_noLabel h, fun _ h => spotifySongOf_noLabel h,
   fun _ h => spotifyArtistOf_noLabel h, by decide, by decide, by decide⟩

/-- C4 witness: the universal fallback statements at a concrete input. -/
theorem parser_fallback_rules_witness :
    occursIn "Song:".data "I dont know".data = false
    ∧ sensorSongOf "I dont know".data = "Sweet but Psycho".data :=
  ⟨by decide, parser_fallback_rules.1 "I dont know".data (by decide)⟩

/-- C5: each handler returns either the success body with status 200 or
`errResp`, which is exactly the uniform body
`{"status": "error", "message": <cause>}` with status 500; a failing
completion call yields precisely `errResp` of its message. -/
theorem handler_error_shape :
    (∀ f st now llm, (∃ m s2 a l, (sensorHandler f st now llm).1
        = ⟨200, [("mood".data, m), ("song".data, s2), ("artist".data, a),
                 ("lighting".data, l), ("status".data, "success".data)]⟩)
      ∨ (∃ e, (sensorHandler f st now llm).1 = errResp e))
    ∧ (∀ st llm, (∃ s2 a, (spotifyHandler st llm).1
        = ⟨200, [("artist".data, a), ("song".data, s2),
                 ("status".data, "success".data)]⟩)
      ∨ (∃ e, (spotifyHandler st llm).1 = errResp e))
    ∧ (∀ e, (errResp e).code = 500
        ∧ (errResp e).body = [("status".data, "error".data), ("message".data, e)])
    ∧ (∀ st e, (spotifyHandler st (Except.error e)).1 = errResp e) := by
  refine ⟨?_, ?_, fun e => ⟨rfl, rfl⟩, fun st e => rfl⟩
  · intro f st now llm
    unfold sensorHandler
    cases hf : floatOfPulseField f with
    | error e => exact Or.inr ⟨e, rfl⟩
    | ok p =>
      cases llm with
      | error e => exact Or.inr ⟨e, rfl⟩
      | ok text => exact Or.inl ⟨_, _, _, _, rfl⟩
  · intro st llm
    cases llm with
    | error e => exact Or.inr ⟨e, rfl⟩
    | ok text => exact Or.inl ⟨_, _, rfl⟩

/-- C5 witness: a failing completion call at concrete inputs. -/
theorem handler_error_shape_witness :
    (spotifyHandler [] (Except.error "boom".data)).1 = errResp "boom".data :=
  handler_error_shape.2.2.2 [] "boom".data

/-- C6 counterexample: a pulse value unparseable as a float is not
replaced by 80 — the handler answers with the 500 error response (whose
message quotes the repr of the value) and the history is left unchanged. -/
theorem unparseable_pulse_cex :
    sensorHandler (some (JVal.str "abc".data)) [] 0
        (Except.ok "Song: A, Artist: B, Lighting: red".data)
      = (errResp ("could not convert string to float: ".data
          ++ (squote :: ('a' :: 'b' :: 'c' :: [squote]))), [])
    ∧ (errResp ("could not convert string to float: ".data
          ++ (squote :: ('a' :: 'b' :: 'c' :: [squote])))).code = 500 :=
  ⟨by decide, rfl⟩

/-- C6 amended: an absent pulse field defaults to 80 (the handler behaves
exactly as if `{"pulse": 80}` had been sent); a present string value that
`float(...)` rejects (`pyFloatAccepts`: the full grammar — sign,
underscored digit runs, point, exponent, inf/infinity/nan — exact for
ASCII bodies) makes `float` raise, and the boundary turns that into the
500 error response, message quoting the repr of the value, without
touching the history. -/
theorem pulse_default_rules :
    (∀ st now llm, sensorHandler none st now llm
        = sensorHandler (some (JVal.num 80)) st now llm)
    ∧ (∀ s st now llm, asciiOnly (floatStrip s) = true → pyFloatAccepts s = false →
        sensorHandler (some (JVal.str s)) st now llm
          = (errResp (floatErrMsg s), st)) := by
  refine ⟨fun st now llm => rfl, ?_⟩
  intro s st now llm hA hacc
  have hf : floatOfPulseField (some (JVal.str s))
      = Except.error (floatErrMsg s) := by
    simp only [floatOfPulseField, Option.getD, pyFloat, accepts_false_none hacc]
  unfold sensorHandler
  rw [hf]

/-- C6 witness: the amended statements at concrete inputs. -/
theorem pulse_default_rules_witness :
    sensorHandler none [] 0 (Except.error "x".data)
      = sensorHandler (some (JVal.num 80)) [] 0 (Except.error "x".data)
    ∧ sensorHandler (some (JVal.str "abc".data)) [] 0 (Except.error "x".data)
      = (errResp (floatErrMsg "abc".data), []) :=
  ⟨pulse_default_rules.1 [] 0 (Except.error "x".data),
   pulse_default_rules.2 "abc".data [] 0 (Except.error "x".data) (by decide) (by decide)⟩

/-- C7: the canonical sensor reply parses to exactly the three announced
fields. -/
theorem canonical_sensor_parse :
    parseSensor "Song: Blinding Lights, Artist: The Weeknd, Lighting: blue".data
      = ("Blinding Lights".data, "The Weeknd".data, "blue".data) := by decide

/-- C8: the parser and the classifier are pure functions of their
arguments (two applications agree), and the spotify handler returns the
history it was given unchanged (`infer_mood` and the parser mutate no
state; the only history write in the program is the sensor handler's
append). -/
theorem parser_mood_pure :
    (∀ t : List Char, parseSensor t = parseSensor t ∧ parseSpotify t = parseSpotify t)
    ∧ (∀ (p : ℚ) (h : List Reading), inferMood p h = inferMood p h)
    ∧ (∀ st llm, (spotifyHandler st llm).2 = st) := by
  refine ⟨fun t => ⟨rfl, rfl⟩, fun p h => rfl, fun st llm => ?_⟩
  cases llm <;> rfl

/-- C9: with an empty history the spotify endpoint uses pulse 80, whose
mood (trend "stable") is "festive"; with a non-empty history it uses the
pulse of the most recent stored reading. -/
theorem spotify_default_pulse :
    (latestPulse [] = 80 ∧ spotifyMood [] = "festive")
    ∧ (∀ (st : List Reading) (r : Reading), st.getLast? = some r →
        latestPulse st = r.pulse) := by
  refine ⟨⟨rfl, by decide⟩, ?_⟩
  intro st r h
  unfold latestPulse
  rw [h]

/-- C9 witness: the most-recent-reading statement at a concrete history. -/
theorem spotify_default_pulse_witness :
    latestPulse [⟨95, 0⟩] = 95 :=
  spotify_default_pulse.2 [⟨95, 0⟩] ⟨95, 0⟩ rfl

/-- C10: whenever the submitted pulse parses, the sensor handler's
resulting history is the deque append of the new reading — also when the
completion call fails and the response is the error response: the append
happens before the call and is not rolled back. -/
theorem sensor_append_before_call (f : Option JVal) (st : List Reading) (now : ℚ)
    (llm : Except (List Char) (List Char)) (p : ℚ)
    (hp : floatOfPulseField f = Except.ok p) :
    (sensorHandler f st now llm).2 = dequeAppend st ⟨p, now⟩
    ∧ ∀ e, llm = Except.error e → (sensorHandler f st now llm).1 = errResp e := by
  unfold sensorHandler
  rw [hp]
  cases llm with
  | error e => exact ⟨rfl, fun e2 he => by cases he; rfl⟩
  | ok text => exact ⟨rfl, fun e2 he => by cases he⟩

/-- C10 witness: a failing completion call still leaves the new reading
appended. -/
theorem sensor_append_before_call_witness :
    (sensorHandler (some (JVal.num 90)) [] 0 (Except.error "boom".data)).2
        = dequeAppend [] ⟨90, 0⟩
    ∧ (sensorHandler (some (JVal.num 90)) [] 0 (Except.error "boom".data)).1
        = errResp "boom".data := by
  have h := sensor_append_before_call (some (JVal.num 90)) [] 0
    (Except.error "boom".data) 90 rfl
  exact ⟨h.1, h.2 "boom".data rfl⟩

end DJ
